import Mathlib

/-!
Shallow embedding of the note-store core of `src/src/App.tsx` (a single-page
markdown note application).  State, the operations `createNote`, `selectNote`,
`deleteNote`, `saveNote`, `importNote`, the search filter, the local-storage
persistence record, and the autosave debounce machine are translated directly
from the source.  JS `Date` values are modelled as milliseconds since the
epoch (`Nat`); `Date.now()` becomes an explicit `now : Nat` argument at each
operation that reads the clock.
-/

namespace MarkdownNotes

/-- The `Note` interface (App.tsx lines 9-16).  `createdAt`/`updatedAt` are
milliseconds since the epoch, which is exactly the information a JS `Date`
carries. -/
structure Note where
  id : String
  title : String
  content : String
  tags : List String
  createdAt : Nat
  updatedAt : Nat
deriving Repr, DecidableEq

/-- A toast notification, as in the `toast` state (line 46): a kind
(success / error / info) and a message. -/
structure Toast where
  kind : String
  message : String
deriving Repr, DecidableEq

/-- The `AppState` interface (App.tsx lines 18-25). -/
structure AppState where
  notes : List Note
  currentNote : Option Note
  searchTerm : String
  isEditing : Bool
  showPreview : Bool
  isDarkMode : Bool
deriving Repr, DecidableEq

/-- Full component state: `AppState` plus the three edit buffers
(`editTitle`, `editContent`, `editTags`, lines 39-41) and the last toast. -/
structure UIState where
  app : AppState
  editTitle : String
  editContent : String
  editTags : String
  toast : Option Toast
deriving Repr, DecidableEq

/-- The initial `useState` value (lines 30-37). -/
def initialState : AppState :=
  { notes := [], currentNote := none, searchTerm := "", isEditing := false,
    showPreview := true, isDarkMode := false }

/-- Initial component state: empty buffers, no toast. -/
def initialUI : UIState :=
  { app := initialState, editTitle := "", editContent := "", editTags := "",
    toast := none }

def defaultTitle : String := "Untitled Note"

def welcomeContent : String :=
  "# Welcome to your new note!\n\nStart typing your markdown content here..."

/-- JS `s.trim()`: strips leading and trailing whitespace.  Written over the
character list so that it is kernel-computable. -/
def jsTrim (s : String) : String :=
  ⟨((s.data.dropWhile Char.isWhitespace).reverse.dropWhile Char.isWhitespace).reverse⟩

def splitCommaAux : List Char → List Char → List String
  | [], acc => [⟨acc.reverse⟩]
  | c :: rest, acc =>
    if c = ',' then ⟨acc.reverse⟩ :: splitCommaAux rest []
    else splitCommaAux rest (c :: acc)

/-- JS `s.split(",")`: the segments between commas, in order; the empty
string yields `[""]`. -/
def splitComma (s : String) : List String := splitCommaAux s.data []

/-- JS `s.toLowerCase()` (ASCII fragment). -/
def jsToLower (s : String) : String := ⟨s.data.map Char.toLower⟩

/-- JS `array.join(", ")`, used to fill the tags edit buffer. -/
def joinCommaSpace : List String → String
  | [] => ""
  | [t] => t
  | t :: rest => t ++ ", " ++ joinCommaSpace rest

/-- `createNote` (lines 48-68): builds a note with `id = Date.now().toString()`,
default title and content, empty tags, both timestamps `now`; prepends it,
selects it, enters edit mode, and resets the edit buffers. -/
def createNote (now : Nat) (s : UIState) : UIState :=
  let newNote : Note :=
    { id := toString now, title := defaultTitle, content := welcomeContent,
      tags := [], createdAt := now, updatedAt := now }
  { s with
    app := { s.app with
      notes := newNote :: s.app.notes,
      currentNote := some newNote,
      isEditing := true },
    editTitle := newNote.title,
    editContent := newNote.content,
    editTags := "" }

/-- `selectNote` (lines 70-80): selects the note, exits edit mode, and loads
the edit buffers from its committed fields (tags joined by `", "`). -/
def selectNote (note : Note) (s : UIState) : UIState :=
  { s with
    app := { s.app with currentNote := some note, isEditing := false },
    editTitle := note.title,
    editContent := note.content,
    editTags := joinCommaSpace note.tags }

/-- `deleteNote` (lines 82-90): filters the note out by id, clears the
selection exactly when the selected note carried that id
(`prev.currentNote?.id === noteId ? null : prev.currentNote`), and always
emits the info toast `Note deleted`. -/
def deleteNote (noteId : String) (s : UIState) : UIState :=
  { s with
    app := { s.app with
      notes := s.app.notes.filter (fun note => note.id != noteId),
      currentNote :=
        match s.app.currentNote with
        | some cn => if cn.id = noteId then none else some cn
        | none => none },
    toast := some { kind := "info", message := "Note deleted" } }

/-- Tag parsing inside `saveNote` (line 103):
`editTags.split(",").map(tag => tag.trim()).filter(tag => tag)`.
JS `"".split(",")` is `[""]`, matching `String.splitOn`. -/
def parseTags (s : String) : List String :=
  ((splitComma s).map jsTrim).filter (fun tag => tag != "")

/-- `saveNote` (lines 96-116): early return when nothing is selected;
otherwise spreads the selected note, replacing title
(`editTitle.trim() || defaultTitle`), content (verbatim buffer), tags
(parsed buffer) and `updatedAt := now`, substitutes it for every entry with
the same id, selects it, exits edit mode, and emits the success toast. -/
def saveNote (now : Nat) (s : UIState) : UIState :=
  match s.app.currentNote with
  | none => s
  | some cn =>
    let updatedNote : Note :=
      { cn with
        title := if jsTrim s.editTitle = "" then defaultTitle else jsTrim s.editTitle,
        content := s.editContent,
        tags := parseTags s.editTags,
        updatedAt := now }
    { s with
      app := { s.app with
        notes := s.app.notes.map
          (fun note => if note.id == updatedNote.id then updatedNote else note),
        currentNote := some updatedNote,
        isEditing := false },
      toast := some { kind := "success", message := "Note saved" } }

/-- `toggleEdit` (lines 118-124). -/
def toggleEdit (now : Nat) (s : UIState) : UIState :=
  if s.app.isEditing then saveNote now s
  else { s with app := { s.app with isEditing := true } }

/-- JS `hay.replace(pat, "")` with a string pattern removes only the FIRST
occurrence of `pat`; recursion over the haystack characters. -/
def removeFirstAux (pat : List Char) : List Char → List Char
  | [] => []
  | c :: rest =>
    if pat.isPrefixOf (c :: rest) then (c :: rest).drop pat.length
    else c :: removeFirstAux pat rest

/-- String wrapper for `removeFirstAux`: the model of
`fileName.replace(".md", "")` (line 233). -/
def removeFirst (hay pat : String) : String :=
  (removeFirstAux pat.data hay.data).asString

/-- `importNote` success path (lines 224-253): the `FileReader.onload`
callback builds a note from the file name (first literal `.md` stripped) and
its full text, prepends and selects it, sets `isEditing := false`, resets the
edit buffers, and emits the success toast. -/
def importNote (fileName fileContent : String) (now : Nat) (s : UIState) : UIState :=
  let newNote : Note :=
    { id := toString now, title := removeFirst fileName ".md",
      content := fileContent, tags := [], createdAt := now, updatedAt := now }
  { s with
    app := { s.app with
      notes := newNote :: s.app.notes,
      currentNote := some newNote,
      isEditing := false },
    editTitle := newNote.title,
    editContent := newNote.content,
    editTags := "",
    toast := some { kind := "success", message := "Note imported" } }

/-- JS `hay.includes(needle)`: `needle` occurs contiguously inside `hay`. -/
def strIncludes (hay needle : String) : Bool :=
  (List.range (hay.data.length + 1)).any
    (fun i => needle.data.isPrefixOf (hay.data.drop i))

/-- The predicate of the `filteredNotes` filter (lines 206-210): the
lowercased term occurs in the lowercased title, or content, or some tag. -/
def noteMatches (searchTerm : String) (note : Note) : Bool :=
  strIncludes (jsToLower note.title) (jsToLower searchTerm) ||
  strIncludes (jsToLower note.content) (jsToLower searchTerm) ||
  note.tags.any (fun tag => strIncludes (jsToLower tag) (jsToLower searchTerm))

/-- `filteredNotes` (lines 206-210). -/
def filteredNotes (notes : List Note) (searchTerm : String) : List Note :=
  notes.filter (noteMatches searchTerm)

/-- JSON values, the medium of the local-storage record.  A `Date` inside
`JSON.stringify` is rendered as an ISO-8601 string with millisecond
precision and `new Date(s)` parses it back exactly; since our timestamps are
the milliseconds themselves, the serialized timestamp is modelled by that
millisecond value (information-identical, exact at sub-second precision). -/
inductive Json where
  | str : String → Json
  | num : Int → Json
  | bool : Bool → Json
  | null : Json
  | arr : List Json → Json
  | obj : List (String × Json) → Json

/-- Field lookup in a JSON object (JS property access). -/
def jsonLookup (key : String) : List (String × Json) → Option Json
  | [] => none
  | (k, v) :: rest => if k = key then some v else jsonLookup key rest

/-- Serialization of one note, as `JSON.stringify` renders it. -/
def encodeNote (n : Note) : Json :=
  .obj [("id", .str n.id), ("title", .str n.title), ("content", .str n.content),
        ("tags", .arr (n.tags.map Json.str)),
        ("createdAt", .num n.createdAt), ("updatedAt", .num n.updatedAt)]

/-- The persisted record (lines 186-192): `{ notes, isDarkMode }` — and
nothing else — written under the single storage key. -/
def persistRecord (notes : List Note) (isDarkMode : Bool) : Json :=
  .obj [("notes", .arr (notes.map encodeNote)), ("isDarkMode", .bool isDarkMode)]

/-- The persistence write for a given state (the `useEffect` on
`state.notes` / `state.isDarkMode`, lines 186-192). -/
def persistState (s : UIState) : Json :=
  persistRecord s.app.notes s.app.isDarkMode

def decodeString : Json → Option String
  | .str v => some v
  | _ => none

def decodeTime : Json → Option Nat
  | .num v => if v < 0 then none else some v.toNat
  | _ => none

def decodeStringList : List Json → Option (List String)
  | [] => some []
  | j :: rest =>
    match decodeString j, decodeStringList rest with
    | some v, some vs => some (v :: vs)
    | _, _ => none

/-- Deserialization of one note (lines 138-142): the parsed object with
`createdAt` / `updatedAt` reconstructed (`new Date(...)`). -/
def decodeNote (j : Json) : Option Note :=
  match j with
  | .obj fields =>
    match jsonLookup "id" fields >>= decodeString,
          jsonLookup "title" fields >>= decodeString,
          jsonLookup "content" fields >>= decodeString with
    | some id, some title, some content =>
      match jsonLookup "tags" fields with
      | some (.arr tagItems) =>
        match decodeStringList tagItems,
              jsonLookup "createdAt" fields >>= decodeTime,
              jsonLookup "updatedAt" fields >>= decodeTime with
        | some tags, some c, some u =>
          some { id := id, title := title, content := content, tags := tags,
                 createdAt := c, updatedAt := u }
        | _, _, _ => none
      | _ => none
    | _, _, _ => none
  | _ => none

def decodeNoteList : List Json → Option (List Note)
  | [] => some []
  | j :: rest =>
    match decodeNote j, decodeNoteList rest with
    | some n, some ns => some (n :: ns)
    | _, _ => none

/-- Deserialization of the whole record: `parsed.notes.map(...)` fails
(throws) unless `notes` is an array of well-formed notes;
`isDarkMode` falls back to `false` (`parsed.isDarkMode || false`). -/
def decodeRecord (j : Json) : Option (List Note × Bool) :=
  match j with
  | .obj fields =>
    match jsonLookup "notes" fields with
    | some (.arr items) =>
      match decodeNoteList items with
      | some ns =>
        some (ns,
          match jsonLookup "isDarkMode" fields with
          | some (.bool b) => b
          | _ => false)
      | none => none
    | _ => none
  | _ => none

/-- The toast shown when the persisted record cannot be deserialized. -/
def errorToast : Toast :=
  { kind := "error", message := "Failed to load notes from local storage." }

/-- The mount-time load effect (lines 131-150).  `saved = none` models an
absent storage key (state untouched).  A present record that fails to
deserialize is caught: the state is untouched (the component keeps its
defaults) and the error toast is shown — the model of
`console.error` + `setToast({type: error, ...})`; no retry, no crash. -/
def loadState (saved : Option Json) (prev : UIState) : UIState :=
  match saved with
  | none => prev
  | some j =>
    match decodeRecord j with
    | some (ns, dark) =>
      { prev with app := { prev.app with notes := ns, isDarkMode := dark } }
    | none => { prev with toast := some errorToast }

/-- A store operation with the clock value `Date.now()` observed by the
operations that read it.  `select i` selects the i-th note of the sidebar
(out-of-range is no selection change, matching that the UI only offers
existing notes). -/
inductive Op where
  | create (now : Nat)
  | select (i : Nat)
  | save (now : Nat)
  | delete (id : String)

/-- The clock value an operation reads, when it reads one. -/
def Op.time : Op → Option Nat
  | .create now => some now
  | .save now => some now
  | _ => none

def applyOp (s : UIState) : Op → UIState
  | .create now => createNote now s
  | .select i =>
    match s.app.notes.get? i with
    | some n => selectNote n s
    | none => s
  | .save now => saveNote now s
  | .delete id => deleteNote id s

/-- Running a sequence of store operations. -/
def runOps (s : UIState) (ops : List Op) : UIState :=
  ops.foldl applyOp s

/-- The clock values read along a sequence, in order. -/
def timesOf (ops : List Op) : List Nat :=
  ops.filterMap Op.time

/-- The arming condition of the autosave effect (line 196):
`state.isEditing && state.currentNote && (editContent !== currentNote.content
|| editTitle !== currentNote.title)`.  The tag buffer is not consulted. -/
def autosaveArmed (s : UIState) : Bool :=
  s.app.isEditing &&
  (match s.app.currentNote with
   | some cn => (s.editContent != cn.content) || (s.editTitle != cn.title)
   | none => false)

/-- The autosave machine: the component state, the pending `setTimeout`
deadline (absolute time, if armed), and the log of times at which `saveNote`
fired. -/
structure AutoState where
  ui : UIState
  deadline : Option Nat
  saveLog : List Nat
deriving Repr, DecidableEq

/-- Re-running the effect at time `t` after a dependency change: the cleanup
clears any pending timeout, and a new one for `t + 1000` is set exactly when
the arming condition holds (lines 195-204). -/
def rearm (t : Nat) (a : AutoState) : AutoState :=
  if autosaveArmed a.ui then { a with deadline := some (t + 1000) }
  else { a with deadline := none }

/-- Events of the editing session: buffer edits (each re-runs the effect,
since all three buffers are dependencies), and the passage of time to `t`
(which fires the pending timeout when its deadline has been reached). -/
inductive AEvent where
  | setTitle (v : String) (t : Nat)
  | setContent (v : String) (t : Nat)
  | setTags (v : String) (t : Nat)
  | elapse (t : Nat)

def autoStep (a : AutoState) : AEvent → AutoState
  | .setTitle v t => rearm t { a with ui := { a.ui with editTitle := v } }
  | .setContent v t => rearm t { a with ui := { a.ui with editContent := v } }
  | .setTags v t => rearm t { a with ui := { a.ui with editTags := v } }
  | .elapse t =>
    match a.deadline with
    | some d =>
      if d ≤ t then
        rearm d { a with ui := saveNote d a.ui, deadline := none,
                         saveLog := a.saveLog ++ [d] }
      else a
    | none => a

/-- Running an editing session. -/
def autoRun (a : AutoState) (es : List AEvent) : AutoState :=
  es.foldl autoStep a

/-! ### Auxiliary definitions for the statements and proofs -/

/-- Big-endian decimal digits of a natural number; the clean counterpart of
core `Nat.toDigits 10`, used to reason about `Date.now().toString()` ids. -/
def natDigits (n : Nat) : List Char :=
  if _h : n < 10 then [Nat.digitChar n]
  else natDigits (n / 10) ++ [Nat.digitChar (n % 10)]
termination_by n
decreasing_by exact Nat.div_lt_self (by omega) (by omega)

def digitVal (c : Char) : Nat := c.toNat - 48

/-- Value of a big-endian decimal digit list. -/
def natVal (l : List Char) : Nat := l.foldl (fun a c => a * 10 + digitVal c) 0

/-- C3 spec-side predicate, phrased as the spec words it: the lowercased
term occurs inside the lowercased title, OR the lowercased content, OR some
lowercased tag. -/
def SpecMatches (term : String) (n : Note) : Prop :=
  (jsToLower term).data <:+: (jsToLower n.title).data ∨
  (jsToLower term).data <:+: (jsToLower n.content).data ∨
  ∃ tag ∈ n.tags, (jsToLower term).data <:+: (jsToLower tag).data

instance (term : String) (n : Note) : Decidable (SpecMatches term n) := by
  unfold SpecMatches
  infer_instance

/-- The note `saveNote` commits, spelled out field by field as the spec
describes it: trimmed title with placeholder fallback, verbatim buffer
content, comma-split / trimmed / nonempty tags, id and createdAt of the
selected note, `updatedAt = now`. -/
def savedVersion (now : Nat) (s : UIState) (cn : Note) : Note :=
  { id := cn.id,
    title := if jsTrim s.editTitle = "" then defaultTitle else jsTrim s.editTitle,
    content := s.editContent,
    tags := ((splitComma s.editTags).map jsTrim).filter (fun tag => tag != ""),
    createdAt := cn.createdAt,
    updatedAt := now }

/-- Invariant carried through an operation run, relative to a clock bound
`c`: every note's id is the decimal rendering of its creation time, creation
times are below `c` and pairwise distinct, `updatedAt` is at least
`createdAt`, and the selected note, if any, is an element of `notes`. -/
def Inv (c : Nat) (s : UIState) : Prop :=
  (∀ n ∈ s.app.notes,
    n.id = toString n.createdAt ∧ n.createdAt < c ∧ n.createdAt ≤ n.updatedAt) ∧
  (s.app.notes.map Note.createdAt).Nodup ∧
  (∀ cn, s.app.currentNote = some cn → cn ∈ s.app.notes)

/-- A concrete note used by witnesses. -/
def exNote : Note :=
  { id := "1", title := "Shopping List", content := "milk and eggs",
    tags := ["home", "Errands"], createdAt := 0, updatedAt := 0 }

/-- A concrete editing state used by witnesses: `exNote` selected, buffers
already modified. -/
def exState : UIState :=
  { app := { notes := [exNote], currentNote := some exNote, searchTerm := "",
             isEditing := true, showPreview := true, isDarkMode := false },
    editTitle := "  New Title ", editContent := "body",
    editTags := "work, ,ideas ,", toast := none }

/-- A concrete state with the preview pane visible. -/
def exPreviewOn : UIState :=
  { app := { notes := [exNote], currentNote := none, searchTerm := "",
             isEditing := false, showPreview := true, isDarkMode := true },
    editTitle := "", editContent := "", editTags := "", toast := none }

/-- The same state with the preview pane hidden: the two differ only in
`showPreview`. -/
def exPreviewOff : UIState :=
  { exPreviewOn with app := { exPreviewOn.app with showPreview := false } }

/-- A committed note for the autosave scenarios. -/
def exCommitted : Note :=
  { id := "1", title := "Untitled Note", content := "start", tags := [],
    createdAt := 0, updatedAt := 0 }

/-- Quiescent editing session on `exCommitted`: editing, buffers equal to
the committed fields, no pending timer. -/
def exAuto : AutoState :=
  { ui := { app := { notes := [exCommitted], currentNote := some exCommitted,
                     searchTerm := "", isEditing := true, showPreview := true,
                     isDarkMode := false },
            editTitle := exCommitted.title, editContent := exCommitted.content,
            editTags := "", toast := none },
    deadline := none, saveLog := [] }

/-! ### Helper lemmas -/

theorem toDigitsCore_eq_natDigits (fuel : Nat) :
    ∀ (n : Nat) (ds : List Char), n < fuel →
      Nat.toDigitsCore 10 fuel n ds = natDigits n ++ ds := by
  induction fuel with
  | zero => intro n ds h; omega
  | succ f ih =>
    intro n ds _
    rw [Nat.toDigitsCore]
    by_cases h10 : n / 10 = 0
    · have hn : n < 10 := by omega
      rw [if_pos h10, natDigits, dif_pos hn, Nat.mod_eq_of_lt hn,
        List.singleton_append]
    · have hpos : 0 < n := by
        rcases Nat.eq_zero_or_pos n with h0 | h0
        · exact absurd (by simp [h0]) h10
        · exact h0
      have hlt : n / 10 < n := Nat.div_lt_self hpos (by omega)
      have hn : ¬ n < 10 := by omega
      rw [if_neg h10, ih (n / 10) (Nat.digitChar (n % 10) :: ds) (by omega)]
      conv_rhs => rw [natDigits]
      rw [dif_neg hn, List.append_assoc, List.singleton_append]

theorem toDigits_eq_natDigits (n : Nat) : Nat.toDigits 10 n = natDigits n := by
  rw [Nat.toDigits, toDigitsCore_eq_natDigits (n + 1) n [] (Nat.lt_succ_self n),
    List.append_nil]

theorem digitVal_digitChar (n : Nat) (h : n < 10) :
    digitVal (Nat.digitChar n) = n := by
  interval_cases n <;> rfl

theorem natVal_append_singleton (l : List Char) (c : Char) :
    natVal (l ++ [c]) = natVal l * 10 + digitVal c := by
  unfold natVal
  rw [List.foldl_append]
  rfl

theorem natVal_natDigits (n : Nat) : natVal (natDigits n) = n := by
  induction n using Nat.strong_induction_on with
  | _ n ih =>
    by_cases h : n < 10
    · rw [natDigits, dif_pos h]
      show 0 * 10 + digitVal (Nat.digitChar n) = n
      rw [digitVal_digitChar n h]
      omega
    · rw [natDigits, dif_neg h, natVal_append_singleton,
        ih (n / 10) (Nat.div_lt_self (by omega) (by omega)),
        digitVal_digitChar (n % 10) (Nat.mod_lt n (by omega))]
      omega

/-- Distinct clock readings give distinct `Date.now().toString()` ids. -/
theorem toString_nat_injective : Function.Injective (fun n : Nat => toString n) := by
  intro a b h
  have hd : Nat.toDigits 10 a = Nat.toDigits 10 b := by
    have h2 := congrArg String.data h
    simpa [toString, Nat.repr, List.asString] using h2
  have h3 := congrArg natVal hd
  rwa [toDigits_eq_natDigits, toDigits_eq_natDigits, natVal_natDigits,
    natVal_natDigits] at h3

/-- `strIncludes` is exactly contiguous-substring occurrence. -/
theorem strIncludes_iff (hay needle : String) :
    strIncludes hay needle = true ↔ needle.data <:+: hay.data := by
  unfold strIncludes
  rw [List.any_eq_true]
  constructor
  · rintro ⟨i, _, hpre⟩
    rw [ List.isPrefixOf_iff_prefix] at hpre
    exact List.IsInfix.trans ( List.IsPrefix.isInfix hpre)
      ( List.IsSuffix.isInfix (List.drop_suffix i hay.data))
  · rintro ⟨s, t, hst⟩
    refine ⟨s.length, ?_, ?_⟩
    · rw [List.mem_range]
      have := congrArg List.length hst
      simp only [List.length_append] at this
      omega
    · rw [ List.isPrefixOf_iff_prefix, ← hst, List.append_assoc,
        List.drop_left]
      exact List.prefix_append _ _

theorem strIncludes_empty_needle (hay : String) : strIncludes hay "" = true := by
  rw [strIncludes_iff]
  exact ⟨[], hay.data, rfl⟩

theorem jsToLower_empty_data : (jsToLower "").data = [] := rfl

theorem noteMatches_iff_specMatches (term : String) (n : Note) :
    noteMatches term n = true ↔ SpecMatches term n := by
  unfold noteMatches SpecMatches
  simp only [Bool.or_eq_true, List.any_eq_true, strIncludes_iff, or_assoc]

theorem saveNote_none (now : Nat) (s : UIState)
    (h : s.app.currentNote = none) : saveNote now s = s := by
  unfold saveNote
  rw [h]

theorem saveNote_some (now : Nat) (s : UIState) (cn : Note)
    (h : s.app.currentNote = some cn) :
    saveNote now s =
      { s with
        app := { s.app with
          notes := s.app.notes.map (fun note =>
            if note.id == cn.id then savedVersion now s cn else note),
          currentNote := some (savedVersion now s cn),
          isEditing := false },
        toast := some { kind := "success", message := "Note saved" } } := by
  unfold saveNote
  rw [h]
  rfl

theorem decodeStringList_map (ts : List String) :
    decodeStringList (ts.map Json.str) = some ts := by
  induction ts with
  | nil => rfl
  | cons h t ih =>
    rw [List.map_cons]
    unfold decodeStringList
    rw [ih]
    rfl

theorem decodeTime_num (c : Nat) : decodeTime (Json.num c) = some c := by
  show (if (c : Int) < 0 then none else some (Int.toNat (c : Int))) = some c
  rw [if_neg (by omega)]
  simp

theorem decodeNote_encodeNote (n : Note) : decodeNote (encodeNote n) = some n := by
  simp [decodeNote, encodeNote, jsonLookup, decodeString, decodeStringList_map,
    decodeTime_num]

theorem decodeNoteList_map (ns : List Note) :
    decodeNoteList (ns.map encodeNote) = some ns := by
  induction ns with
  | nil => rfl
  | cons h t ih =>
    rw [List.map_cons]
    unfold decodeNoteList
    rw [decodeNote_encodeNote, ih]

theorem decodeRecord_persistRecord (ns : List Note) (dark : Bool) :
    decodeRecord (persistRecord ns dark) = some (ns, dark) := by
  simp [decodeRecord, persistRecord, jsonLookup, decodeNoteList_map]

theorem loadState_some_eq (j : Json) (p : UIState) :
    loadState (some j) p =
      match decodeRecord j with
      | some (ns, dark) =>
        { p with app := { p.app with notes := ns, isDarkMode := dark } }
      | none => { p with toast := some errorToast } := rfl

theorem loadState_decode_none (j : Json) (p : UIState)
    (h : decodeRecord j = none) :
    loadState (some j) p = { p with toast := some errorToast } := by
  rw [loadState_some_eq, h]

theorem loadState_decode_some (j : Json) (p : UIState) (ns : List Note)
    (dark : Bool) (h : decodeRecord j = some (ns, dark)) :
    loadState (some j) p =
      { p with app := { p.app with notes := ns, isDarkMode := dark } } := by
  rw [loadState_some_eq, h]

theorem deleteNote_currentNote_eq (noteId : String) (s : UIState) :
    (deleteNote noteId s).app.currentNote =
      match s.app.currentNote with
      | some cn => if cn.id = noteId then none else some cn
      | none => none := rfl

/-! ### Claim theorems -/

/-- C2: with a selected note, `saveNote` replaces every entry carrying the
selected id by the note built from the edit buffers — title trimmed with
placeholder fallback, content verbatim, tags comma-split / trimmed /
nonempty — preserving `id` and `createdAt`; the spec's worked tag example
parses as stated; and with no selection `saveNote` changes nothing. -/
theorem C2_saveNote_spec (now : Nat) (s : UIState) (cn : Note)
    (h : s.app.currentNote = some cn) :
    (saveNote now s).app.notes = s.app.notes.map (fun note =>
        if note.id == cn.id then savedVersion now s cn else note) ∧
    (saveNote now s).app.currentNote = some (savedVersion now s cn) ∧
    (savedVersion now s cn).id = cn.id ∧
    (savedVersion now s cn).createdAt = cn.createdAt ∧
    (savedVersion now s cn).content = s.editContent ∧
    parseTags "work, ,ideas ," = ["work", "ideas"] ∧
    (∀ s2 : UIState, s2.app.currentNote = none → saveNote now s2 = s2) := by
  rw [saveNote_some now s cn h]
  exact ⟨rfl, rfl, rfl, rfl, rfl, by decide, fun s2 h2 => saveNote_none now s2 h2⟩

/-- C2 witness: the worked editing state `exState` (selected note `exNote`,
title buffer `"  New Title "`, tag buffer `"work, ,ideas ,"`). -/
theorem C2_saveNote_spec_witness :
    (saveNote 9 exState).app.notes = exState.app.notes.map (fun note =>
        if note.id == exNote.id then savedVersion 9 exState exNote else note) ∧
    (saveNote 9 exState).app.currentNote = some (savedVersion 9 exState exNote) ∧
    (savedVersion 9 exState exNote).id = exNote.id ∧
    (savedVersion 9 exState exNote).createdAt = exNote.createdAt ∧
    (savedVersion 9 exState exNote).content = exState.editContent ∧
    parseTags "work, ,ideas ," = ["work", "ideas"] ∧
    (∀ s2 : UIState, s2.app.currentNote = none → saveNote 9 s2 = s2) :=
  C2_saveNote_spec 9 exState exNote rfl

/-- C3: `filteredNotes` returns the ordered subsequence (original order
preserved, witnessed by `Sublist` and by equality with a `filter`) of
exactly those notes whose lowercased title, lowercased content, or some
lowercased tag contains the lowercased search term as a substring; the
empty term returns all notes in order; a term matching no note returns the
empty sequence. -/
theorem C3_filteredNotes_spec (notes : List Note) (term : String) :
    (filteredNotes notes term).Sublist notes ∧
    (∀ n, n ∈ filteredNotes notes term ↔ n ∈ notes ∧ SpecMatches term n) ∧
    filteredNotes notes term =
      notes.filter (fun n => decide (SpecMatches term n)) ∧
    filteredNotes notes "" = notes ∧
    ((∀ n ∈ notes, ¬ SpecMatches term n) → filteredNotes notes term = []) := by
  have hpt : ∀ n, noteMatches term n = decide (SpecMatches term n) := by
    intro n
    rw [Bool.eq_iff_iff, decide_eq_true_eq]
    exact noteMatches_iff_specMatches term n
  refine ⟨List.filter_sublist _, ?_, ?_, ?_, ?_⟩
  · intro n
    rw [filteredNotes, List.mem_filter, noteMatches_iff_specMatches]
  · exact List.filter_congr (fun n _ => hpt n)
  · rw [filteredNotes, List.filter_eq_self]
    intro n _
    have h1 : strIncludes (jsToLower n.title) (jsToLower "") = true := by
      rw [strIncludes_iff, jsToLower_empty_data]
      exact List.nil_infix
    simp [noteMatches, h1]
  · intro h
    rw [filteredNotes, List.filter_eq_nil_iff]
    intro n hn
    rw [noteMatches_iff_specMatches]
    exact h n hn

/-- C3 witness: searching `exNote` (whose tags include `"Errands"`) with the
term `"errands"`. -/
theorem C3_filteredNotes_spec_witness :
    (filteredNotes [exNote] "errands").Sublist [exNote] ∧
    (∀ n, n ∈ filteredNotes [exNote] "errands" ↔
      n ∈ [exNote] ∧ SpecMatches "errands" n) ∧
    filteredNotes [exNote] "errands" =
      [exNote].filter (fun n => decide (SpecMatches "errands" n)) ∧
    filteredNotes [exNote] "" = [exNote] ∧
    ((∀ n ∈ [exNote], ¬ SpecMatches "errands" n) →
      filteredNotes [exNote] "errands" = []) :=
  C3_filteredNotes_spec [exNote] "errands"

/-- C4: persisting any state and loading the resulting record back restores
exactly the note collection — every id, title, content, tag list, and both
millisecond timestamps — together with the theme flag, into any state the
load runs on. -/
theorem C4_persistence_roundtrip (s init : UIState) :
    decodeRecord (persistState s) = some (s.app.notes, s.app.isDarkMode) ∧
    loadState (some (persistState s)) init =
      { init with app :=
          { init.app with
            notes := s.app.notes,
            isDarkMode := s.app.isDarkMode } } := by
  refine ⟨decodeRecord_persistRecord s.app.notes s.app.isDarkMode, ?_⟩
  exact loadState_decode_some (persistState s) init s.app.notes s.app.isDarkMode
    (decodeRecord_persistRecord s.app.notes s.app.isDarkMode)

/-- C5: `deleteNote` removes exactly the id-matching notes keeping the
order of the rest, clears the selection precisely when the selected note
carried the id, is a no-op on the collection when the id is absent, and in
every case emits the deletion notification (the info toast
`Note deleted`). -/
theorem C5_deleteNote_spec (noteId : String) (s : UIState) :
    (deleteNote noteId s).app.notes =
      s.app.notes.filter (fun n => n.id != noteId) ∧
    ((deleteNote noteId s).app.notes).Sublist s.app.notes ∧
    (s.app.currentNote.map Note.id = some noteId →
      (deleteNote noteId s).app.currentNote = none) ∧
    (s.app.currentNote.map Note.id ≠ some noteId →
      (deleteNote noteId s).app.currentNote = s.app.currentNote) ∧
    ((∀ n ∈ s.app.notes, n.id ≠ noteId) →
      (deleteNote noteId s).app.notes = s.app.notes) ∧
    (deleteNote noteId s).toast =
      some { kind := "info", message := "Note deleted" } := by
  refine ⟨rfl, List.filter_sublist _, ?_, ?_, ?_, rfl⟩
  · intro hid
    rw [deleteNote_currentNote_eq]
    cases hcn : s.app.currentNote with
    | none => rfl
    | some cn =>
      rw [hcn] at hid
      have hcnid : cn.id = noteId := by simpa using hid
      simp [hcnid]
  · intro hid
    rw [deleteNote_currentNote_eq]
    cases hcn : s.app.currentNote with
    | none => rfl
    | some cn =>
      have hcnid : ¬ cn.id = noteId := by
        intro heq
        apply hid
        rw [hcn]
        show some cn.id = some noteId
        rw [heq]
      simp [hcnid]
  · intro h
    show s.app.notes.filter (fun n => n.id != noteId) = s.app.notes
    rw [List.filter_eq_self]
    intro n hn
    simpa using h n hn

/-- C5 witness: deleting the selected note `exNote` by its id, in the state
`exState`. -/
theorem C5_deleteNote_spec_witness :
    (deleteNote "1" exState).app.notes =
      exState.app.notes.filter (fun n => n.id != "1") ∧
    ((deleteNote "1" exState).app.notes).Sublist exState.app.notes ∧
    (exState.app.currentNote.map Note.id = some "1" →
      (deleteNote "1" exState).app.currentNote = none) ∧
    (exState.app.currentNote.map Note.id ≠ some "1" →
      (deleteNote "1" exState).app.currentNote = exState.app.currentNote) ∧
    ((∀ n ∈ exState.app.notes, n.id ≠ "1") →
      (deleteNote "1" exState).app.notes = exState.app.notes) ∧
    (deleteNote "1" exState).toast =
      some { kind := "info", message := "Note deleted" } :=
  C5_deleteNote_spec "1" exState

/-- C6: a persisted record that fails to deserialize is caught: the state
is left exactly as it was apart from the non-fatal error toast, so the
application continues — at mount, with the default empty notes and light
theme.  `loadState` is a total function (never crashes) and consults the
decoder exactly once (no retry). -/
theorem C6_load_malformed (j : Json) (prev : UIState)
    (h : decodeRecord j = none) :
    loadState (some j) prev = { prev with toast := some errorToast } ∧
    (loadState (some j) initialUI).app.notes = [] ∧
    (loadState (some j) initialUI).app.isDarkMode = false ∧
    (loadState (some j) initialUI).app = initialUI.app := by
  refine ⟨loadState_decode_none j prev h, ?_, ?_, ?_⟩ <;>
    rw [loadState_decode_none j initialUI h] <;> rfl

/-- C6 witness: the stored record is the bare string `"garbage"` (the shape
`parsed.notes.map` throws on). -/
theorem C6_load_malformed_witness :
    loadState (some (Json.str "garbage")) initialUI =
      { initialUI with toast := some errorToast } ∧
    (loadState (some (Json.str "garbage")) initialUI).app.notes = [] ∧
    (loadState (some (Json.str "garbage")) initialUI).app.isDarkMode = false ∧
    (loadState (some (Json.str "garbage")) initialUI).app = initialUI.app :=
  C6_load_malformed (Json.str "garbage") initialUI rfl

/-- C8 counterexample: a file import does NOT enter edit mode — `importNote`
sets `isEditing` to `false` (App.tsx line 244), even from a state that was
in edit mode — so the claim that every creation path enters edit mode is
false. -/
theorem C8_counterexample :
    exState.app.isEditing = true ∧
    (importNote "notes.md" "hello" 7 exState).app.isEditing = false := by
  decide

/-- C8 (amended): both creation paths prepend the new note, select it, and
reset the edit buffers to the new note's fields, and neither has a failure
mode; `createNote` enters edit mode, while `importNote` leaves edit mode
off (`isEditing := false`). -/
theorem C8_create_import_spec (now : Nat) (fileName fileContent : String)
    (s : UIState) :
    (∃ n : Note, (createNote now s).app.notes = n :: s.app.notes ∧
      (createNote now s).app.currentNote = some n ∧
      (createNote now s).app.isEditing = true ∧
      (createNote now s).editTitle = n.title ∧
      (createNote now s).editContent = n.content ∧
      (createNote now s).editTags = "" ∧ n.tags = []) ∧
    (∃ n : Note, (importNote fileName fileContent now s).app.notes =
        n :: s.app.notes ∧
      (importNote fileName fileContent now s).app.currentNote = some n ∧
      (importNote fileName fileContent now s).app.isEditing = false ∧
      (importNote fileName fileContent now s).editTitle = n.title ∧
      (importNote fileName fileContent now s).editContent = n.content ∧
      n.content = fileContent ∧
      (importNote fileName fileContent now s).editTags = "" ∧
      n.title = removeFirst fileName ".md" ∧ n.tags = []) :=
  ⟨⟨_, rfl, rfl, rfl, rfl, rfl, rfl, rfl⟩,
   ⟨_, rfl, rfl, rfl, rfl, rfl, rfl, rfl, rfl, rfl⟩⟩

/-- C9 counterexample: two states differing only in `showPreview` persist
to the SAME record — so the record cannot contain the flag — and loading a
record persisted with `showPreview = false` leaves the default
`showPreview = true` untouched: the flag is neither written nor restored. -/
theorem C9_counterexample :
    persistState exPreviewOn = persistState exPreviewOff ∧
    exPreviewOn.app.showPreview ≠ exPreviewOff.app.showPreview ∧
    (loadState (some (persistState exPreviewOff)) initialUI).app.showPreview
      ≠ exPreviewOff.app.showPreview := by
  refine ⟨rfl, by decide, by decide⟩

/-- C9 (amended): the persisted record is a function of `notes` and
`isDarkMode` alone — `showPreview` is not part of it — and `loadState`
never changes `showPreview`. -/
theorem C9_persistence_scope (s t : UIState) (saved : Option Json)
    (h1 : s.app.notes = t.app.notes) (h2 : s.app.isDarkMode = t.app.isDarkMode) :
    persistState s = persistState t ∧
    (loadState saved s).app.showPreview = s.app.showPreview := by
  constructor
  · unfold persistState
    rw [h1, h2]
  · cases saved with
    | none => rfl
    | some j =>
      rw [loadState_some_eq]
      cases hd : decodeRecord j with
      | none => rfl
      | some p =>
        obtain ⟨ns, dark⟩ := p
        rfl

/-- C9 amended-claim witness: the two concrete preview states and the
record persisted from the second. -/
theorem C9_persistence_scope_witness :
    persistState exPreviewOn = persistState exPreviewOff ∧
    (loadState (some (persistState exPreviewOff)) exPreviewOn).app.showPreview
      = exPreviewOn.app.showPreview :=
  C9_persistence_scope exPreviewOn exPreviewOff
    (some (persistState exPreviewOff)) rfl rfl

theorem map_id_replace (l : List Note) (u : Note) :
    (l.map (fun note => if note.id == u.id then u else note)).map Note.id =
      l.map Note.id := by
  rw [List.map_map]
  apply List.map_congr_left
  intro x _
  show Note.id (if x.id == u.id then u else x) = x.id
  by_cases hx : (x.id == u.id) = true
  · rw [if_pos hx]
    exact (eq_of_beq hx).symm
  · rw [if_neg hx]

/-- C10: `saveNote` keeps `searchTerm`, `showPreview`, `isDarkMode`, and the
per-position ids — hence the length and order — of `notes` (the matching
entry is replaced in place); `deleteNote` keeps `searchTerm`, `showPreview`,
`isDarkMode`, `isEditing`, and the surviving notes' relative order;
`selectNote` keeps `notes`, `searchTerm`, `showPreview`, `isDarkMode`. -/
theorem C10_frame_conditions (now : Nat) (noteId : String) (n : Note)
    (s : UIState) :
    ((saveNote now s).app.searchTerm = s.app.searchTerm ∧
     (saveNote now s).app.showPreview = s.app.showPreview ∧
     (saveNote now s).app.isDarkMode = s.app.isDarkMode ∧
     (saveNote now s).app.notes.map Note.id = s.app.notes.map Note.id ∧
     (saveNote now s).app.notes.length = s.app.notes.length) ∧
    ((deleteNote noteId s).app.searchTerm = s.app.searchTerm ∧
     (deleteNote noteId s).app.showPreview = s.app.showPreview ∧
     (deleteNote noteId s).app.isDarkMode = s.app.isDarkMode ∧
     (deleteNote noteId s).app.isEditing = s.app.isEditing ∧
     ((deleteNote noteId s).app.notes).Sublist s.app.notes) ∧
    ((selectNote n s).app.notes = s.app.notes ∧
     (selectNote n s).app.searchTerm = s.app.searchTerm ∧
     (selectNote n s).app.showPreview = s.app.showPreview ∧
     (selectNote n s).app.isDarkMode = s.app.isDarkMode) := by
  refine ⟨?_, ⟨rfl, rfl, rfl, rfl, List.filter_sublist _⟩, rfl, rfl, rfl, rfl⟩
  cases hcn : s.app.currentNote with
  | none =>
    rw [saveNote_none now s hcn]
    exact ⟨rfl, rfl, rfl, rfl, rfl⟩
  | some cn =>
    rw [saveNote_some now s cn hcn]
    refine ⟨rfl, rfl, rfl, ?_, ?_⟩
    · exact map_id_replace s.app.notes (savedVersion now s cn)
    · show (s.app.notes.map fun note =>
          if note.id == cn.id then savedVersion now s cn else note).length =
        s.app.notes.length
      rw [List.length_map]

/-- C7: the autosave debounce.  (a) A content edit at time `t` after which
the arming condition holds sets the pending deadline to exactly `t + 1000`,
whatever was pending before (cancel and restart, trailing edge); (b) the
same for a title edit; (c) a tag-buffer edit while the title and content
buffers agree with the committed note disarms the countdown; (d) in the
spec scenario — edits at 0 ms and at 500 ms, then idle — nothing has fired
by 1000 ms, and exactly one save fires, at 1500 ms = last edit + 1000 ms,
with nothing further by 2600 ms. -/
theorem C7_autosave_debounce :
    (∀ (a : AutoState) (v : String) (t : Nat),
      autosaveArmed { a.ui with editContent := v } = true →
      (autoStep a (.setContent v t)).deadline = some (t + 1000)) ∧
    (∀ (a : AutoState) (v : String) (t : Nat),
      autosaveArmed { a.ui with editTitle := v } = true →
      (autoStep a (.setTitle v t)).deadline = some (t + 1000)) ∧
    (∀ (a : AutoState) (v : String) (t : Nat) (cn : Note),
      a.ui.app.currentNote = some cn →
      a.ui.editTitle = cn.title → a.ui.editContent = cn.content →
      (autoStep a (.setTags v t)).deadline = none) ∧
    (autoRun exAuto [.setContent "a" 0, .setContent "ab" 500,
      .elapse 1000]).saveLog = [] ∧
    (autoRun exAuto [.setContent "a" 0, .setContent "ab" 500, .elapse 1000,
      .elapse 1500, .elapse 2600]).saveLog = [1500] := by
  refine ⟨?_, ?_, ?_, by decide, by decide⟩
  · intro a v t h
    show (rearm t { a with ui := { a.ui with editContent := v } }).deadline =
      some (t + 1000)
    simp [rearm, h]
  · intro a v t h
    show (rearm t { a with ui := { a.ui with editTitle := v } }).deadline =
      some (t + 1000)
    simp [rearm, h]
  · intro a v t cn hcn h1 h2
    have harm : autosaveArmed { a.ui with editTags := v } = false := by
      simp [autosaveArmed, hcn, h1, h2]
    show (rearm t { a with ui := { a.ui with editTags := v } }).deadline = none
    simp [rearm, harm]

/-- C7 witness: concrete edits on the quiescent session `exAuto`. -/
theorem C7_autosave_debounce_witness :
    (autoStep exAuto (.setContent "x" 3)).deadline = some (3 + 1000) ∧
    (autoStep exAuto (.setTitle "y" 4)).deadline = some (4 + 1000) ∧
    (autoStep exAuto (.setTags "tag" 5)).deadline = none :=
  ⟨C7_autosave_debounce.1 exAuto "x" 3 (by decide),
   C7_autosave_debounce.2.1 exAuto "y" 4 (by decide),
   C7_autosave_debounce.2.2.1 exAuto "tag" 5 exCommitted rfl rfl rfl⟩

theorem createNote_notes (now : Nat) (s : UIState) :
    (createNote now s).app.notes =
      { id := toString now, title := defaultTitle, content := welcomeContent,
        tags := [], createdAt := now, updatedAt := now } :: s.app.notes := rfl

theorem createNote_currentNote (now : Nat) (s : UIState) :
    (createNote now s).app.currentNote =
      some { id := toString now, title := defaultTitle,
             content := welcomeContent, tags := [], createdAt := now,
             updatedAt := now } := rfl

theorem deleteNote_notes_eq (noteId : String) (s : UIState) :
    (deleteNote noteId s).app.notes =
      s.app.notes.filter (fun n => n.id != noteId) := rfl

theorem inv_mono (c c2 : Nat) (s : UIState) (h : Inv c s) (hcc : c ≤ c2) :
    Inv c2 s := by
  obtain ⟨hf, hn, hc⟩ := h
  refine ⟨?_, hn, hc⟩
  intro n hn2
  obtain ⟨h1, h2, h3⟩ := hf n hn2
  exact ⟨h1, by omega, h3⟩

theorem inv_initial : Inv 0 initialUI := by
  refine ⟨?_, ?_, ?_⟩
  · intro n hn
    exact absurd hn (List.not_mem_nil n)
  · exact List.nodup_nil
  · intro cn hcn
    exact Option.noConfusion hcn

theorem inv_create (now c : Nat) (s : UIState) (h : Inv c s) (hc : c ≤ now) :
    Inv (now + 1) (createNote now s) := by
  obtain ⟨hf, hn, _⟩ := h
  refine ⟨?_, ?_, ?_⟩
  · intro n hn2
    rw [createNote_notes] at hn2
    rcases List.mem_cons.mp hn2 with h1 | h1
    · subst h1
      exact ⟨rfl, by show now < now + 1; omega, Nat.le_refl now⟩
    · obtain ⟨ha, hb, hd⟩ := hf n h1
      exact ⟨ha, by omega, hd⟩
  · rw [createNote_notes, List.map_cons, List.nodup_cons]
    constructor
    · intro hmem
      rw [List.mem_map] at hmem
      obtain ⟨x, hx, hxeq⟩ := hmem
      have hlt := (hf x hx).2.1
      have : x.createdAt = now := hxeq
      omega
    · exact hn
  · intro cn hcn
    rw [createNote_currentNote] at hcn
    injection hcn with hcn
    rw [createNote_notes, ← hcn]
    exact List.mem_cons_self _ _

theorem inv_select (c : Nat) (n : Note) (s : UIState) (h : Inv c s)
    (hmem : n ∈ s.app.notes) : Inv c (selectNote n s) := by
  obtain ⟨hf, hn, _⟩ := h
  refine ⟨hf, hn, ?_⟩
  intro cn hcn
  have h2 : some n = some cn := hcn
  injection h2 with h2
  show cn ∈ s.app.notes
  rw [← h2]
  exact hmem

theorem inv_delete (c : Nat) (noteId : String) (s : UIState) (h : Inv c s) :
    Inv c (deleteNote noteId s) := by
  obtain ⟨hf, hn, hcur⟩ := h
  refine ⟨?_, ?_, ?_⟩
  · intro n hn2
    rw [deleteNote_notes_eq] at hn2
    exact hf n (List.mem_of_mem_filter hn2)
  · rw [deleteNote_notes_eq]
    exact List.Nodup.sublist
      (List.Sublist.map Note.createdAt (List.filter_sublist _)) hn
  · intro cn hcn
    rw [deleteNote_currentNote_eq] at hcn
    cases hc2 : s.app.currentNote with
    | none =>
      rw [hc2] at hcn
      exact Option.noConfusion (hcn : (none : Option Note) = some cn)
    | some cn2 =>
      rw [hc2] at hcn
      have hcn3 : (if cn2.id = noteId then none else some cn2) = some cn := hcn
      by_cases hid : cn2.id = noteId
      · rw [if_pos hid] at hcn3
        exact Option.noConfusion hcn3
      · rw [if_neg hid] at hcn3
        injection hcn3 with h2
        rw [deleteNote_notes_eq, ← h2, List.mem_filter]
        refine ⟨hcur cn2 hc2, ?_⟩
        simpa using hid

theorem inv_save (now c : Nat) (s : UIState) (h : Inv c s) (hc : c ≤ now) :
    Inv (now + 1) (saveNote now s) := by
  obtain ⟨hf, hn, hcur⟩ := h
  cases hcn : s.app.currentNote with
  | none =>
    rw [saveNote_none now s hcn]
    exact inv_mono c (now + 1) s ⟨hf, hn, hcur⟩ (by omega)
  | some cn =>
    have hcnmem : cn ∈ s.app.notes := hcur cn hcn
    have hcnid : cn.id = toString cn.createdAt := (hf cn hcnmem).1
    have hkey : ∀ x ∈ s.app.notes, (x.id == cn.id) = true →
        x.createdAt = cn.createdAt := by
      intro x hx hbeq
      have hxid : x.id = toString x.createdAt := (hf x hx).1
      have hxe : x.id = cn.id := eq_of_beq hbeq
      apply toString_nat_injective
      show toString x.createdAt = toString cn.createdAt
      rw [← hxid, ← hcnid, hxe]
    rw [saveNote_some now s cn hcn]
    refine ⟨?_, ?_, ?_⟩
    · intro n hn2
      have hn3 : n ∈ s.app.notes.map (fun note =>
          if note.id == cn.id then savedVersion now s cn else note) := hn2
      rw [List.mem_map] at hn3
      obtain ⟨x, hx, hxeq⟩ := hn3
      rw [← hxeq]
      by_cases hb : (x.id == cn.id) = true
      · rw [if_pos hb]
        have hcd := (hf cn hcnmem).2.1
        exact ⟨hcnid, by show cn.createdAt < now + 1; omega,
          by show cn.createdAt ≤ now; omega⟩
      · rw [if_neg hb]
        obtain ⟨h1, h2, h3⟩ := hf x hx
        exact ⟨h1, by omega, h3⟩
    · show ((s.app.notes.map fun note =>
          if note.id == cn.id then savedVersion now s cn else note).map
            Note.createdAt).Nodup
      have heq : (s.app.notes.map fun note =>
          if note.id == cn.id then savedVersion now s cn else note).map
            Note.createdAt = s.app.notes.map Note.createdAt := by
        rw [List.map_map]
        apply List.map_congr_left
        intro x hx
        show Note.createdAt
          (if x.id == cn.id then savedVersion now s cn else x) = x.createdAt
        by_cases hb : (x.id == cn.id) = true
        · rw [if_pos hb]
          exact (hkey x hx hb).symm
        · rw [if_neg hb]
      rw [heq]
      exact hn
    · intro cn2 hcn2
      have h2 : some (savedVersion now s cn) = some cn2 := hcn2
      injection h2 with h2
      show cn2 ∈ s.app.notes.map (fun note =>
        if note.id == cn.id then savedVersion now s cn else note)
      rw [← h2]
      refine List.mem_map.mpr ⟨cn, hcnmem, ?_⟩
      rw [if_pos (by simp)]

theorem runOps_inv (ops : List Op) :
    ∀ (s : UIState) (c : Nat), Inv c s →
      (timesOf ops).Pairwise (· < ·) →
      (∀ t ∈ timesOf ops, c ≤ t) →
      ∃ c2, Inv c2 (runOps s ops) := by
  induction ops with
  | nil =>
    intro s c hs _ _
    exact ⟨c, hs⟩
  | cons op rest ih =>
    intro s c hs hp hlb
    cases op with
    | create now =>
      have hp2 : (now :: timesOf rest).Pairwise (· < ·) := hp
      have hlb2 : ∀ t ∈ now :: timesOf rest, c ≤ t := hlb
      have hcle : c ≤ now := hlb2 now (List.mem_cons_self _ _)
      obtain ⟨hlt, hp3⟩ := List.pairwise_cons.mp hp2
      show ∃ c2, Inv c2 (runOps (createNote now s) rest)
      exact ih (createNote now s) (now + 1)
        (inv_create now c s hs hcle) hp3
        (fun t ht => by have := hlt t ht; omega)
    | save now =>
      have hp2 : (now :: timesOf rest).Pairwise (· < ·) := hp
      have hlb2 : ∀ t ∈ now :: timesOf rest, c ≤ t := hlb
      have hcle : c ≤ now := hlb2 now (List.mem_cons_self _ _)
      obtain ⟨hlt, hp3⟩ := List.pairwise_cons.mp hp2
      show ∃ c2, Inv c2 (runOps (saveNote now s) rest)
      exact ih (saveNote now s) (now + 1)
        (inv_save now c s hs hcle) hp3
        (fun t ht => by have := hlt t ht; omega)
    | select i =>
      show ∃ c2, Inv c2 (runOps (applyOp s (Op.select i)) rest)
      cases hget : s.app.notes.get? i with
      | none =>
        have happ : applyOp s (Op.select i) = s := by
          show (match s.app.notes.get? i with
                | some n => selectNote n s
                | none => s) = s
          rw [hget]
        rw [happ]
        exact ih s c hs hp hlb
      | some n =>
        have hmem : n ∈ s.app.notes := List.get?_mem hget
        have happ : applyOp s (Op.select i) = selectNote n s := by
          show (match s.app.notes.get? i with
                | some n => selectNote n s
                | none => s) = selectNote n s
          rw [hget]
        rw [happ]
        exact ih (selectNote n s) c (inv_select c n s hs hmem) hp hlb
    | delete id =>
      show ∃ c2, Inv c2 (runOps (deleteNote id s) rest)
      exact ih (deleteNote id s) c (inv_delete c id s hs) hp hlb

/-- C1 counterexample: two `create` operations with the same `Date.now()`
reading — two creations inside the same millisecond — produce two notes
that both carry the id `"5"`, so the invariant does not hold for every
operation sequence. -/
theorem C1_counterexample :
    ¬ ((((runOps initialUI [.create 5, .create 5]).app.notes.map
          Note.id).Nodup) ∧
       ∀ n ∈ (runOps initialUI [.create 5, .create 5]).app.notes,
         n.createdAt ≤ n.updatedAt) := by
  decide

/-- C1 (amended): if the clock readings observed by the create/save
operations are strictly increasing along the sequence — the behavior the
code relies on from `Date.now()` — then every run from the empty state
yields pairwise-distinct ids and `updatedAt ≥ createdAt` for every note. -/
theorem C1_invariants_of_monotone_clock (ops : List Op)
    (hmono : (timesOf ops).Pairwise (· < ·)) :
    ((runOps initialUI ops).app.notes.map Note.id).Nodup ∧
    ∀ n ∈ (runOps initialUI ops).app.notes, n.createdAt ≤ n.updatedAt := by
  obtain ⟨c2, hf, hn, _⟩ :=
    runOps_inv ops initialUI 0 inv_initial hmono (fun t _ => Nat.zero_le t)
  constructor
  · have heq : (runOps initialUI ops).app.notes.map Note.id =
        ((runOps initialUI ops).app.notes.map Note.createdAt).map
          (fun t => toString t) := by
      rw [List.map_map]
      apply List.map_congr_left
      intro n hn2
      exact (hf n hn2).1
    rw [heq]
    exact List.Nodup.map toString_nat_injective hn
  · intro n hn2
    exact (hf n hn2).2.2

/-- C1 witness: a create / select / save / create / delete run whose clock
readings 1, 2, 3 strictly increase. -/
theorem C1_invariants_witness :
    (((runOps initialUI
        [.create 1, .select 0, .save 2, .create 3, .delete "1"]).app.notes.map
          Note.id).Nodup) ∧
    ∀ n ∈ (runOps initialUI
        [.create 1, .select 0, .save 2, .create 3, .delete "1"]).app.notes,
      n.createdAt ≤ n.updatedAt :=
  C1_invariants_of_monotone_clock
    [.create 1, .select 0, .save 2, .create 3, .delete "1"] (by decide)

end MarkdownNotes
